import Mathlib

/-!
Verification of the dune-foamgrid topological core against its source.

The definitions below are shallow embeddings of the C++ sources:
  - `foamgridintersectioniterators.hh` (level/leaf intersection iterators,
    hierarchic iterator),
  - `foamgridfactory.hh` (coarse-grid construction, boundary ids),
  - `foamgridindexsets.hh` (level and leaf index passes, leaf size queries).

Element identity (C++ pointer equality) is modelled by a numeric id `eid`;
grid ids are unique per codimension, so pointer equality coincides with id
equality.  Machine `int`/`size_t` values stay well inside their ranges in
every construct modelled here (indices bounded by container sizes), so they
are modelled as `Nat`/`Int` without wrap-around.
-/

namespace FoamGrid

/-- An element (codim-0 entity, a triangle) as seen by the intersection
iterators: its identity and its refinement level.  Mirrors the fields of
`FoamGridEntityImp<2,dimworld>` that the iterators read. -/
structure LvlElem where
  eid : Nat
  level : Nat
deriving DecidableEq

/-- The number of corners (= local edges) of a triangle element;
`center->corners()` in the source. -/
def corners : Nat := 3

/-- The scan predicate of the level-intersection iterator: the inner `while`
skips `neighbor_` while `center_ == *neighbor_ || center_->level() !=
(*neighbor_)->level()`; an entry is accepted when it is a different element
at the center's level. -/
def isLvlNeighbor (c x : LvlElem) : Bool :=
  (x.eid != c.eid) && (x.level == c.level)

/-- Position of the first accepted entry of `l` at or after position `j`
(the inner scan of the level iterator, entered at `neighborIndex_ = j`). -/
def findFrom (c : LvlElem) (l : List LvlElem) (j : Nat) : Option Nat :=
  match List.findIdx? (fun x => isLvlNeighbor c x) (l.drop j) with
  | some k => some (j + k)
  | none => none

/-- The `(edgeIndex_, neighborIndex_)` pair of `FoamGridLevelIntersection`
that the level-intersection iterator manipulates. -/
structure LvlState where
  edgeIndex : Nat
  neighborIndex : Nat
deriving DecidableEq

/-- The outer `while(edgeIndex_ != corners)` loop shared by the constructor
and `increment()` of `FoamGridLevelIntersectionIterator`: scan edge `e` from
position `j`; on success stop there; if the list is exhausted and has size 1
this is a boundary intersection (`neighborIndex_ = elements_.size() = 1`);
otherwise move to the next edge and restart the scan at its top.  Leaving
the loop at `edgeIndex == corners` sets `neighborIndex_ = 0` (end state). -/
def levelLoop (c : LvlElem) (es : Fin 3 → List LvlElem) (e j : Nat) : LvlState :=
  if h : e < 3 then
    match findFrom c (es ⟨e, h⟩) j with
    | some k => ⟨e, k⟩
    | none =>
      if (es ⟨e, h⟩).length = 1 then ⟨e, 1⟩
      else levelLoop c es (e + 1) 0
  else ⟨e, 0⟩
termination_by 3 - e

/-- The constructor `FoamGridLevelIntersectionIterator(center, edge)`:
at `edge == corners` it is the end iterator (`neighborIndex_ = 0`); if the
starting edge's incidence list has size 1 it returns a boundary state at
once (`neighborIndex_ = 1`) without scanning; otherwise it runs the scan
loop from the top of edge `e`.  (Arguments `e > corners` are a caller
contract violation in the source; the `else` branch is unused junk.) -/
def levelStart (c : LvlElem) (es : Fin 3 → List LvlElem) (e : Nat) : LvlState :=
  if h : e < 3 then
    if (es ⟨e, h⟩).length = 1 then ⟨e, 1⟩
    else levelLoop c es e 0
  else ⟨e, 0⟩

/-- `FoamGridLevelIntersectionIterator::increment()`: at the end state it
silently sets `neighborIndex_ = 0` and returns; from a boundary state it
advances `edgeIndex_` and restarts the scan at the new edge's top; otherwise
it re-enters the scan loop at the current `neighborIndex_`. -/
def levelIncrement (c : LvlElem) (es : Fin 3 → List LvlElem) (s : LvlState) : LvlState :=
  if s.edgeIndex = 3 then ⟨s.edgeIndex, 0⟩
  else if h : s.edgeIndex < 3 then
    if (es ⟨s.edgeIndex, h⟩).length = 1 then
      levelLoop c es (s.edgeIndex + 1) 0
    else
      levelLoop c es s.edgeIndex s.neighborIndex
  else ⟨s.edgeIndex, 0⟩

/-- Outcome of resolving one starting edge slot, in the vocabulary of the
specification: a found neighbor, a boundary intersection, or the end
state. -/
inductive LvlOutcome where
  | found (edgeIndex neighborIndex : Nat)
  | boundaryAt (edgeIndex : Nat)
  | atEnd
deriving DecidableEq

/-- Transcription of the claim (spec 4.5, level intersections): at slot `e`,
take the first element of the edge's incident-element list that is not `E`
itself and is at exactly `E.level`; if the list is exhausted with size 1 the
slot is a boundary intersection; if it is exhausted with size greater than 1
and nothing matched, advance to slot `e+1` and restart at the top of that
list; slot `corners` is the end state. -/
def levelClaimScan (c : LvlElem) (es : Fin 3 → List LvlElem) (e : Nat) : LvlOutcome :=
  if h : e < 3 then
    match List.findIdx? (fun x => (x.eid != c.eid) && (x.level == c.level)) (es ⟨e, h⟩) with
    | some j => .found e j
    | none =>
      if (es ⟨e, h⟩).length = 1 then .boundaryAt e
      else levelClaimScan c es (e + 1)
  else .atEnd
termination_by 3 - e

/-- The iterator state that each claimed outcome denotes: a found neighbor
keeps its scan position, a boundary state carries `neighborIndex_ =
elements_.size() = 1`, and the end state is `(corners, 0)`. -/
def lvlInterp (o : LvlOutcome) : LvlState :=
  match o with
  | .found e j => ⟨e, j⟩
  | .boundaryAt e => ⟨e, 1⟩
  | .atEnd => ⟨3, 0⟩

theorem findFrom_zero (c : LvlElem) (l : List LvlElem) :
    findFrom c l 0 = List.findIdx? (fun x => isLvlNeighbor c x) l := by
  unfold findFrom
  rw [List.drop_zero]
  cases h : List.findIdx? (fun x => isLvlNeighbor c x) l with
  | some k => simp
  | none => rfl

theorem levelLoop_claim (c : LvlElem) (es : Fin 3 → List LvlElem) (e : Nat)
    (h3 : e ≤ 3) :
    levelLoop c es e 0 = lvlInterp (levelClaimScan c es e) := by
  by_cases h : e < 3
  · rw [levelLoop, levelClaimScan]
    simp only [h, dif_pos]
    rw [findFrom_zero]
    have hpred : (fun x => isLvlNeighbor c x) =
        (fun x => (x.eid != c.eid) && (x.level == c.level)) := rfl
    rw [hpred]
    cases hf : List.findIdx? (fun x => (x.eid != c.eid) && (x.level == c.level))
        (es ⟨e, h⟩) with
    | some k => rfl
    | none =>
      by_cases hl : (es ⟨e, h⟩).length = 1
      · simp [hl, lvlInterp]
      · simp only [hl, if_neg, not_false_iff]
        exact levelLoop_claim c es (e + 1) (by omega)
  · have he : e = 3 := by omega
    subst he
    rw [levelLoop, levelClaimScan]
    simp only [Nat.lt_irrefl, dif_neg, not_false_iff]
    rfl
termination_by 3 - e

/-- C1: for every center element `E` and local edge slot `e ∈ [0, corners]`,
the level-intersection iterator constructed at slot `e` is the state the
specification describes: it refers to the first element of that edge's
incident-element list that is not `E` itself and whose level equals
`E.level`; if the incidence list is exhausted with size exactly 1 the state
is the boundary state (no neighbor, `neighborIndex = size = 1`); if it is
exhausted with size greater than 1 and no element matched, the iterator
advances to slot `e+1` and restarts at the top of that list, reaching the
end state `(corners, 0)` when the slot index reaches `corners`.  The
hypothesis `hmem` is the grid invariant that `E` occurs in the incidence
list of each of its own edges (the factory pushes the owning element onto
every edge it registers). -/
theorem c1_level_iterator_start (c : LvlElem) (es : Fin 3 → List LvlElem) (e : Nat)
    (h3 : e ≤ 3) (hmem : ∀ (h : e < 3), c ∈ es ⟨e, h⟩) :
    levelStart c es e = lvlInterp (levelClaimScan c es e) := by
  by_cases h : e < 3
  · rw [levelStart]
    simp only [h, dif_pos]
    by_cases hl : (es ⟨e, h⟩).length = 1
    · have hc := hmem h
      obtain ⟨x, hx⟩ := List.length_eq_one.mp hl
      rw [hx] at hc
      have hcx : c = x := by simpa using hc
      subst hcx
      rw [levelClaimScan]
      simp only [h, dif_pos, hx]
      simp [List.findIdx?, hl, lvlInterp, hx]
    · simp only [hl, if_neg, not_false_iff]
      exact levelLoop_claim c es e h3
  · have he : e = 3 := by omega
    subst he
    rw [levelStart, levelClaimScan]
    simp only [Nat.lt_irrefl, dif_neg, not_false_iff]
    rfl

/-- Witness for C1: a conforming interior starting edge in a concrete
two-element configuration; the iterator finds the neighbor at position 1. -/
theorem c1_level_iterator_start_witness :
    levelStart ⟨0, 0⟩ ![[⟨0, 0⟩, ⟨1, 0⟩], [⟨0, 0⟩], [⟨0, 0⟩]] 0 =
      lvlInterp (levelClaimScan ⟨0, 0⟩ ![[⟨0, 0⟩, ⟨1, 0⟩], [⟨0, 0⟩], [⟨0, 0⟩]] 0) :=
  c1_level_iterator_start ⟨0, 0⟩ ![[⟨0, 0⟩, ⟨1, 0⟩], [⟨0, 0⟩], [⟨0, 0⟩]] 0
    (by decide)
    (fun _h => show LvlElem.mk 0 0 ∈ [LvlElem.mk 0 0, LvlElem.mk 1 0] by decide)

/-- An edge (codim-1 entity) as seen by the leaf-intersection iterator:
either a leaf edge (`sons_[0] == nullptr`) or a refined edge with two sons;
both carry their own incident-element list `elements_`. -/
inductive LeafEdge where
  | leafE (elems : List LvlElem)
  | nodeE (s0 s1 : LeafEdge) (elems : List LvlElem)
deriving DecidableEq

/-- The edge's own `elements_` list (read by the boundary test
`center->edges_[edge]->elements_.size() == 1`). -/
def ownElems : LeafEdge → List LvlElem
  | .leafE es => es
  | .nodeE _ _ es => es

/-- `FoamGridLeafIntersectionIterator::traverseAndPushLeafEdges`: if the
edge is a leaf, append its incident-element list to the accumulator;
otherwise recurse into son 0 and then son 1. -/
def traverseAndPushLeafEdges : LeafEdge → List LvlElem → List LvlElem
  | .leafE es, acc => acc ++ es
  | .nodeE s0 s1 _, acc => traverseAndPushLeafEdges s1 (traverseAndPushLeafEdges s0 acc)

/-- The vector `leafEdges_[i]` the constructor builds for local edge `i`. -/
def leafVec (E : Fin 3 → LeafEdge) (i : Fin 3) : List LvlElem :=
  traverseAndPushLeafEdges (E i) []

/-- Transcription of the claim (spec 4.5, leaf intersections): the
concatenation, in depth-first order with son 0 before son 1 and a childless
edge contributing its own incident-element list, of the incident-element
lists of all leaf descendant edges. -/
def leafDescElems : LeafEdge → List LvlElem
  | .leafE es => es
  | .nodeE s0 s1 _ => leafDescElems s0 ++ leafDescElems s1

/-- State of `FoamGridLeafIntersectionIterator`: the end iterator
(`topLevelEdgeIter_ == leafEdges_.end()`), the early-return state of the
constructor on a boundary edge (which leaves `topLevelEdgeIter_`
uninitialised, with `neighbor_` at position `n` of the slot's vector), or an
active state `(topLevelEdgeIter_, leafEdgeIter_, neighbor_)` with the two
vector iterators as positions into `leafEdges_[tle]`. -/
inductive LeafIter where
  | endIt
  | boundaryStop (edgeIndex n : Nat)
  | active (tle li n : Nat)
deriving DecidableEq

/-- The head-of-vector center skip (`if(neighbor_ != neighborEnd_ &&
*neighbor_ == center_) ++neighbor_`): position 1 if the vector's first entry
is the center, else 0. -/
def skipHead (c : LvlElem) (l : List LvlElem) : Nat :=
  match l with
  | [] => 0
  | x :: _ => if x.eid == c.eid then 1 else 0

/-- The constructor `FoamGridLeafIntersectionIterator(center, edge)`:
`edge == corners` gives the end iterator; a slot whose edge's own incidence
list has size 1 returns at once (boundary edge, `neighbor_` left at the
vector head, `topLevelEdgeIter_` never set); otherwise the state is
`(edge, 0, skipHead)`.  (Arguments `e > corners` index `edges_` out of
bounds in the source; the final branch is unused junk.) -/
def leafStart (c : LvlElem) (E : Fin 3 → LeafEdge) (e : Nat) : LeafIter :=
  if h : e < 3 then
    if (ownElems (E ⟨e, h⟩)).length = 1 then .boundaryStop e 0
    else .active e 0 (skipHead c (leafVec E ⟨e, h⟩))
  else .endIt

/-- `FoamGridLeafIntersectionIterator::increment()`: on the end iterator it
throws `InvalidStateException` (modelled as `Except.error`); otherwise it
advances `neighbor_`, and when `neighbor_` reaches the end of the current
vector it advances `leafEdgeIter_` (moving `topLevelEdgeIter_` to the next
slot when that too is exhausted, or to the end state after the last slot)
and restarts `neighbor_` at the head of the then-current vector with the
center skip.  Incrementing the constructor's boundary early-return state
compares an uninitialised iterator in the source (undefined behaviour);
that branch is unused junk, as is an active state with `tle ≥ 3`. -/
def leafIncrement (c : LvlElem) (E : Fin 3 → LeafEdge) (s : LeafIter) :
    Except Unit LeafIter :=
  match s with
  | .endIt => .error ()
  | .boundaryStop _ _ => .error ()
  | .active tle li n =>
    if h : tle < 3 then
      let vec := leafVec E ⟨tle, h⟩
      if n + 1 = vec.length then
        if li + 1 = vec.length then
          if h2 : tle + 1 < 3 then
            .ok (.active (tle + 1) 0 (skipHead c (leafVec E ⟨tle + 1, h2⟩)))
          else .ok .endIt
        else .ok (.active tle (li + 1) (skipHead c vec))
      else .ok (.active tle li (n + 1))
    else .error ()

theorem traverseAndPush_eq_acc_append (t : LeafEdge) :
    ∀ acc, traverseAndPushLeafEdges t acc = acc ++ leafDescElems t := by
  induction t with
  | leafE es => intro acc; rfl
  | nodeE s0 s1 es ih0 ih1 =>
    intro acc
    rw [traverseAndPushLeafEdges, ih0, ih1, leafDescElems, List.append_assoc]

/-- C2 counterexample: a conforming interior leaf edge whose incidence list
is `[B, E]` (the factory order when the neighbor was inserted first).  The
iterator starts at `B` and a single increment moves it to position 1 of the
slot vector, which is the center element `E` itself — `E` is enumerated as
its own neighbor, contradicting the claimed exclusion of `E` from the
enumeration. -/
theorem c2_leaf_iterator_counterexample :
    leafStart ⟨1, 0⟩ ![.leafE [⟨2, 0⟩, ⟨1, 0⟩], .leafE [⟨1, 0⟩], .leafE [⟨1, 0⟩]] 0 =
      .active 0 0 0 ∧
    leafIncrement ⟨1, 0⟩ ![.leafE [⟨2, 0⟩, ⟨1, 0⟩], .leafE [⟨1, 0⟩], .leafE [⟨1, 0⟩]]
      (.active 0 0 0) = .ok (.active 0 0 1) ∧
    (leafVec ![.leafE [⟨2, 0⟩, ⟨1, 0⟩], .leafE [⟨1, 0⟩], .leafE [⟨1, 0⟩]] 0).get? 1 =
      some ⟨1, 0⟩ := by
  refine ⟨by decide, rfl, by decide⟩

/-- C2 amended: the slot vector built by `traverseAndPushLeafEdges` is the
concatenation, in depth-first leaf-descendant order (son 0 before son 1, a
childless edge contributing its own incident-element list), of the
incident-element lists of the leaf descendant edges — with the center `E`
not excluded; during enumeration `E` is skipped only when it is the head
entry of the current slot vector at the start of a sweep, and an entry at
any later position (including `E` itself) is enumerated; a slot whose edge's
own incidence list has size 1 makes the constructor return immediately at
the head of the slot vector with the top-level iterator unset. -/
theorem c2_leaf_iterator_amended :
    (∀ (t : LeafEdge) (acc : List LvlElem),
      traverseAndPushLeafEdges t acc = acc ++ leafDescElems t) ∧
    (∀ (c : LvlElem) (E : Fin 3 → LeafEdge) (tle li n : Nat) (h : tle < 3),
      n + 1 < (leafVec E ⟨tle, h⟩).length →
      leafIncrement c E (.active tle li n) = .ok (.active tle li (n + 1))) ∧
    (∀ (c : LvlElem) (E : Fin 3 → LeafEdge) (e : Nat) (h : e < 3),
      (ownElems (E ⟨e, h⟩)).length = 1 →
      leafStart c E e = .boundaryStop e 0) := by
  refine ⟨fun t acc => traverseAndPush_eq_acc_append t acc, ?_, ?_⟩
  · intro c E tle li n h hlt
    rw [leafIncrement]
    simp only [h, dif_pos]
    have hne : ¬ (n + 1 = (leafVec E ⟨tle, h⟩).length) := by omega
    simp [hne]
  · intro c E e h hl
    rw [leafStart]
    simp [h, hl]

/-- Witness for C2 amended: a refined edge's vector is the two sons' lists
in order; a mid-vector increment does not skip the center; a size-1 slot
stops the constructor. -/
theorem c2_leaf_iterator_amended_witness :
    traverseAndPushLeafEdges
        (.nodeE (.leafE [⟨2, 1⟩]) (.leafE [⟨3, 1⟩]) [⟨1, 0⟩, ⟨4, 0⟩]) [] =
      [⟨2, 1⟩, ⟨3, 1⟩] ∧
    leafIncrement ⟨1, 0⟩ ![.leafE [⟨2, 0⟩, ⟨1, 0⟩], .leafE [⟨1, 0⟩], .leafE [⟨1, 0⟩]]
      (.active 0 0 0) = .ok (.active 0 0 1) ∧
    leafStart ⟨1, 0⟩ ![.leafE [⟨1, 0⟩], .leafE [⟨1, 0⟩], .leafE [⟨1, 0⟩]] 0 =
      .boundaryStop 0 0 := by
  refine ⟨c2_leaf_iterator_amended.1 _ _, ?_, ?_⟩
  · exact c2_leaf_iterator_amended.2.1 ⟨1, 0⟩ _ 0 0 0 (by decide) (by decide)
  · exact c2_leaf_iterator_amended.2.2 ⟨1, 0⟩ _ 0 (by decide) (by decide)

/-- C6 counterexample: incrementing a one-past-the-end level-intersection
iterator (state `(corners, 0)`) at a concrete center returns normally with
the state unchanged — a silent no-op, not a signaled error.  The embedding
of a fatal signaled error is `Except.error` (as in `leafIncrement`, which
models `DUNE_THROW`); `levelIncrement`, translated from the source, is a
total function whose end branch merely rewrites `neighborIndex_` to 0. -/
theorem c6_level_end_increment_counterexample :
    levelIncrement ⟨0, 0⟩ ![[⟨0, 0⟩], [⟨0, 0⟩], [⟨0, 0⟩]] ⟨3, 0⟩ = ⟨3, 0⟩ := by
  decide

/-- C6 amended: incrementing a one-past-the-end leaf-intersection iterator
throws `InvalidStateException` (fatal, modelled as `Except.error`), but
incrementing a one-past-the-end level-intersection iterator is a silent
no-op that sets `neighborIndex_` to 0 and returns normally. -/
theorem c6_end_increment_amended :
    (∀ (c : LvlElem) (E : Fin 3 → LeafEdge),
      leafIncrement c E .endIt = .error ()) ∧
    (∀ (c : LvlElem) (es : Fin 3 → List LvlElem) (j : Nat),
      levelIncrement c es ⟨3, j⟩ = ⟨3, 0⟩) := by
  refine ⟨fun c E => rfl, fun c es j => ?_⟩
  rw [levelIncrement]
  simp

/-! Factory model (`GridFactory<FoamGrid>::createGrid`).  Vertices are
identified by insertion index (each `insertVertex` call creates a distinct
object, so the C++ vertex pointers are in bijection with insertion
indices); elements likewise. -/

/-- An edge record created by `createGrid`: the two endpoint vertices in
first-seen orientation (the `(v0,v1)` key under which the edge was stored in
`edgeMap`) and its incident-element list `elements_`, element insertion
indices in `push_back` order. -/
structure FEdge where
  v0 : Nat
  v1 : Nat
  elems : List Nat
deriving DecidableEq

/-- A coarse triangle by its three corner vertex insertion indices. -/
structure Tri where
  a : Nat
  b : Nat
  c : Nat
deriving DecidableEq

/-- The three vertex pairs of a triangle's local edges in local-edge order,
`(refElement.subEntity(i,1,0,2), refElement.subEntity(i,1,1,2))` for
`i = 0,1,2`: the Dune reference triangle has edge 0 = `{0,1}`,
edge 1 = `{0,2}`, edge 2 = `{1,2}`. -/
def slots (t : Tri) : List (Nat × Nat) := [(t.a, t.b), (t.a, t.c), (t.b, t.c)]

/-- The double `edgeMap` lookup of the source: an existing edge matches the
pair `(a,b)` when it was stored under `(a,b)` or under `(b,a)`. -/
def matchEdge (p : Nat × Nat) (e : FEdge) : Bool :=
  (e.v0 == p.1 && e.v1 == p.2) || (e.v0 == p.2 && e.v1 == p.1)

/-- Processing one local edge of element `k`: find the edge for this vertex
pair and push `k` onto its incidence list, or create the edge (appended at
the back: `entityImps_` is a list kept in creation order) with incidence
list `[k]`.  The source keys edges in a `std::map`; since an edge is created
only when the lookup fails, at most one stored edge ever matches a pair, and
the map lookup coincides with a first-match scan of the creation-order
list. -/
def addSlot (k : Nat) : List FEdge → (Nat × Nat) → List FEdge
  | [], p => [⟨p.1, p.2, [k]⟩]
  | e :: r, p =>
    if matchEdge p e then { e with elems := e.elems ++ [k] } :: r
    else e :: addSlot k r p

/-- The inner loop of `createGrid` over the three local edges of element
`k`. -/
def addTri (es : List FEdge) (k : Nat) (t : Tri) : List FEdge :=
  (slots t).foldl (fun acc p => addSlot k acc p) es

/-- The outer loop of `createGrid` over all inserted elements, `k` the
insertion index of the next element. -/
def buildGo (k : Nat) (es : List FEdge) : List Tri → List FEdge
  | [] => es
  | t :: r => buildGo (k + 1) (addTri es k t) r

/-- The edge list produced by `createGrid`'s edge-creation pass, in creation
order. -/
def buildEdges (ts : List Tri) : List FEdge := buildGo 0 [] ts

/-- The unordered-pair normal form used to reason about the two-orientation
lookup. -/
def normP (r : Nat × Nat) : Nat × Nat := (min r.1 r.2, max r.1 r.2)

/-- The unordered vertex pair an edge record stands for. -/
def keyOf (e : FEdge) : Nat × Nat := normP (e.v0, e.v1)

/-- All local-edge vertex pairs of a triangle list, in processing order. -/
def triPairs (ts : List Tri) : List (Nat × Nat) := ts.flatMap slots

/-- How many local-edge slots of the processed pairs carry the unordered
pair `q`. -/
def pocc (done : List (Nat × Nat)) (q : Nat × Nat) : Nat :=
  (done.filter (fun r => normP r = q)).length

/-- The number of local-edge slots over all inserted triangles whose
unordered vertex pair is `{a, b}` — the count behind "an unordered pair of
vertices is shared by at most two triangles" (each triangle contributes one
slot per local edge carrying the pair). -/
def sharedCount (ts : List Tri) (a b : Nat) : Nat := pocc (triPairs ts) (normP (a, b))

theorem matchEdge_iff_key (p : Nat × Nat) (e : FEdge) :
    matchEdge p e = true ↔ keyOf e = normP p := by
  simp only [matchEdge, keyOf, normP, Bool.or_eq_true, Bool.and_eq_true,
    beq_iff_eq, Prod.mk.injEq]
  omega

theorem pocc_nil (q : Nat × Nat) : pocc [] q = 0 := rfl

theorem pocc_cons (r : Nat × Nat) (l : List (Nat × Nat)) (q : Nat × Nat) :
    pocc (r :: l) q = (if normP r = q then 1 else 0) + pocc l q := by
  by_cases h : normP r = q <;> simp [pocc, List.filter_cons, h, Nat.add_comm]

theorem pocc_append_single (done : List (Nat × Nat)) (p q : Nat × Nat) :
    pocc (done ++ [p]) q = pocc done q + (if normP p = q then 1 else 0) := by
  by_cases h : normP p = q <;>
    simp [pocc, List.filter_append, h]

/-- The three invariants of the edge-creation pass: every created edge has a
nonempty incidence list whose length is the number of processed slots
carrying its pair; the created edges have pairwise distinct unordered pairs;
and every pair that has been processed has an edge. -/
def EdgeInv (done : List (Nat × Nat)) (es : List FEdge) : Prop :=
  (∀ e ∈ es, e.elems ≠ [] ∧ e.elems.length = pocc done (keyOf e)) ∧
  (es.map keyOf).Nodup ∧
  (∀ q, pocc done q ≠ 0 → q ∈ es.map keyOf)

theorem addSlot_no_match (k : Nat) (p : Nat × Nat) :
    ∀ es : List FEdge, (∀ e ∈ es, matchEdge p e = false) →
      addSlot k es p = es ++ [⟨p.1, p.2, [k]⟩]
  | [], _ => rfl
  | e :: r, h => by
    rw [addSlot]
    have he := h e (List.mem_cons_self e r)
    rw [he]
    simp only [Bool.false_eq_true, if_false, List.cons_append, List.cons.injEq,
      true_and]
    exact addSlot_no_match k p r (fun x hx => h x (List.mem_cons_of_mem e hx))

theorem addSlot_first_match (k : Nat) (p : Nat × Nat) :
    ∀ (es₁ : List FEdge) (ej : FEdge) (es₂ : List FEdge),
      (∀ e ∈ es₁, matchEdge p e = false) → matchEdge p ej = true →
      addSlot k (es₁ ++ ej :: es₂) p =
        es₁ ++ { ej with elems := ej.elems ++ [k] } :: es₂
  | [], ej, es₂, _, hm => by
    simp only [List.nil_append]
    rw [addSlot, hm]
    simp
  | e :: r, ej, es₂, h1, hm => by
    simp only [List.cons_append]
    rw [addSlot]
    have he := h1 e (List.mem_cons_self e r)
    rw [he]
    simp only [Bool.false_eq_true, if_false, List.cons.injEq, true_and]
    exact addSlot_first_match k p r ej es₂
      (fun x hx => h1 x (List.mem_cons_of_mem e hx)) hm

theorem match_decomp (p : Nat × Nat) :
    ∀ es : List FEdge, (∀ e ∈ es, matchEdge p e = false) ∨
      ∃ es₁ ej es₂, es = es₁ ++ ej :: es₂ ∧
        (∀ e ∈ es₁, matchEdge p e = false) ∧ matchEdge p ej = true
  | [] => Or.inl (by simp)
  | e :: r => by
    by_cases he : matchEdge p e = true
    · exact Or.inr ⟨[], e, r, by simp, by simp, he⟩
    · rcases match_decomp p r with h | ⟨es₁, ej, es₂, hr, h1, hm⟩
      · refine Or.inl ?_
        intro x hx
        rcases List.mem_cons.mp hx with hx | hx
        · subst hx; exact Bool.not_eq_true _ ▸ (by simpa using he)
        · exact h x hx
      · refine Or.inr ⟨e :: es₁, ej, es₂, by rw [hr, List.cons_append], ?_, hm⟩
        intro x hx
        rcases List.mem_cons.mp hx with hx | hx
        · subst hx; simpa using he
        · exact h1 x hx

theorem edgeInv_addSlot (k : Nat) (p : Nat × Nat) (done : List (Nat × Nat))
    (es : List FEdge) (hinv : EdgeInv done es) :
    EdgeInv (done ++ [p]) (addSlot k es p) := by
  obtain ⟨h1, h2, h3⟩ := hinv
  rcases match_decomp p es with hno | ⟨es₁, ej, es₂, hsplit, hleft, hm⟩
  · -- no edge matches: a new edge is appended; its pair was never processed
    rw [addSlot_no_match k p es hno]
    have hkey : normP p ∉ es.map keyOf := by
      intro hq
      rcases List.mem_map.mp hq with ⟨e, he, hke⟩
      exact absurd ((matchEdge_iff_key p e).mpr hke) (by simp [hno e he])
    have hocc0 : pocc done (normP p) = 0 := by
      by_contra hne
      exact hkey (h3 _ hne)
    refine ⟨?_, ?_, ?_⟩
    · intro e he
      rcases List.mem_append.mp he with he | he
      · have hne : keyOf e ≠ normP p := fun hq => hkey (hq ▸ List.mem_map_of_mem keyOf he)
        rw [pocc_append_single, if_neg (fun hq => hne hq.symm)]
        simpa using h1 e he
      · have : e = ⟨p.1, p.2, [k]⟩ := by simpa using he
        subst this
        refine ⟨by simp, ?_⟩
        rw [pocc_append_single]
        have hkn : keyOf ⟨p.1, p.2, [k]⟩ = normP p := rfl
        rw [hkn, if_pos rfl, hocc0]
        simp
    · rw [List.map_append]
      simp only [List.map_cons, List.map_nil]
      refine List.nodup_append.mpr ⟨h2, List.nodup_singleton _, ?_⟩
      intro q hq hq2
      have hkn : keyOf ⟨p.1, p.2, [k]⟩ = normP p := rfl
      rw [List.mem_singleton, hkn] at hq2
      exact hkey (hq2 ▸ hq)
    · intro q hq
      rw [pocc_append_single] at hq
      rw [List.map_append]
      by_cases hpq : normP p = q
      · subst hpq
        simp [keyOf]
      · rw [if_neg hpq] at hq
        simp only [Nat.add_zero] at hq
        exact List.mem_append_left _ (h3 q hq)
  · -- the unique matching edge receives the element
    subst hsplit
    rw [addSlot_first_match k p es₁ ej es₂ hleft hm]
    have hkeyj : keyOf ej = normP p := (matchEdge_iff_key p ej).mp hm
    have hkk : keyOf { ej with elems := ej.elems ++ [k] } = keyOf ej := rfl
    have hmapeq : List.map keyOf (es₁ ++ { ej with elems := ej.elems ++ [k] } :: es₂) =
        List.map keyOf (es₁ ++ ej :: es₂) := by
      simp [List.map_append, List.map_cons, hkk]
    have h2' := h2
    rw [List.map_append, List.map_cons] at h2'
    have hnodup := List.nodup_append.mp h2'
    have hmem₁ : ∀ x ∈ es₁, keyOf x ≠ normP p := by
      intro x hx hq
      exact hnodup.2.2 (List.mem_map_of_mem keyOf hx)
        (by rw [hq, ← hkeyj]; exact List.mem_cons_self _ _)
    have hmem₂ : ∀ x ∈ es₂, keyOf x ≠ normP p := by
      intro x hx hq
      exact (List.nodup_cons.mp hnodup.2.1).1
        (by rw [hkeyj, ← hq]; exact List.mem_map_of_mem keyOf hx)
    refine ⟨?_, ?_, ?_⟩
    · intro e he
      rcases List.mem_append.mp he with he | he
      · have h1e := h1 e (List.mem_append_left _ he)
        rw [pocc_append_single, if_neg (fun hq => hmem₁ e he hq.symm)]
        simpa using h1e
      · rcases List.mem_cons.mp he with he | he
        · subst he
          have h1e := h1 ej (by simp)
          refine ⟨by simp, ?_⟩
          rw [hkk, pocc_append_single, if_pos hkeyj.symm]
          simp [h1e.2]
        · have h1e := h1 e (by simp [he])
          rw [pocc_append_single, if_neg (fun hq => hmem₂ e he hq.symm)]
          simpa using h1e
    · rw [hmapeq]
      exact h2
    · intro q hq
      rw [pocc_append_single] at hq
      rw [hmapeq]
      by_cases hpq : normP p = q
      · subst hpq
        rw [List.map_append, List.map_cons, hkeyj]
        simp
      · rw [if_neg hpq] at hq
        simp only [Nat.add_zero] at hq
        exact h3 q hq

theorem edgeInv_addTri (k : Nat) (t : Tri) (done : List (Nat × Nat))
    (es : List FEdge) (hinv : EdgeInv done es) :
    EdgeInv (done ++ slots t) (addTri es k t) := by
  have h1 := edgeInv_addSlot k (t.a, t.b) done es hinv
  have h2 := edgeInv_addSlot k (t.a, t.c) (done ++ [(t.a, t.b)]) _ h1
  have h3 := edgeInv_addSlot k (t.b, t.c) (done ++ [(t.a, t.b)] ++ [(t.a, t.c)]) _ h2
  have heq : done ++ [(t.a, t.b)] ++ [(t.a, t.c)] ++ [(t.b, t.c)] = done ++ slots t := by
    simp [slots]
  rw [heq] at h3
  exact h3

theorem edgeInv_buildGo (ts : List Tri) :
    ∀ (k : Nat) (done : List (Nat × Nat)) (es : List FEdge),
      EdgeInv done es → EdgeInv (done ++ triPairs ts) (buildGo k es ts) := by
  induction ts with
  | nil => intro k done es h; simpa [triPairs, buildGo] using h
  | cons t r ih =>
    intro k done es h
    rw [buildGo]
    have h1 := edgeInv_addTri k t done es h
    have h2 := ih (k + 1) (done ++ slots t) _ h1
    have heq : done ++ slots t ++ triPairs r = done ++ triPairs (t :: r) := by
      simp [triPairs]
    rw [heq] at h2
    exact h2

theorem edgeInv_buildEdges (ts : List Tri) :
    EdgeInv (triPairs ts) (buildEdges ts) := by
  have h := edgeInv_buildGo ts 0 [] []
    ⟨by simp, by simp, by intro q hq; simp [pocc] at hq⟩
  simpa [buildEdges] using h

/-- C5: for every coarse mesh built through the factory in which each
inserted triangle references previously inserted vertices (`hv`, corner
indices below the inserted-vertex count) and each unordered pair of vertices
is shared by at most two triangle local-edge slots (`hshare`), every edge
created by `createGrid` has an incident-element list of size 1 (boundary) or
2 (interior), never 0. -/
theorem c5_incidence_cardinality (ts : List Tri) (nv : Nat)
    (_hv : ∀ t ∈ ts, t.a < nv ∧ t.b < nv ∧ t.c < nv)
    (hshare : ∀ a b : Nat, sharedCount ts a b ≤ 2) :
    ∀ e ∈ buildEdges ts, e.elems.length = 1 ∨ e.elems.length = 2 := by
  intro e he
  have hinv := edgeInv_buildEdges ts
  have h1 := hinv.1 e he
  have hub : pocc (triPairs ts) (keyOf e) ≤ 2 := by
    have := hshare e.v0 e.v1
    simpa [sharedCount, keyOf] using this
  have hlb : e.elems.length ≠ 0 := fun h0 => h1.1 (List.length_eq_zero.mp h0)
  omega

/-- Witness for C5: in the two-triangle square (vertices 0-3, triangles
`(0,1,2)` and `(1,2,3)`), the shared edge `{1,2}` has incidence size 1
or 2. -/
theorem c5_incidence_cardinality_witness :
    (⟨1, 2, [0, 1]⟩ : FEdge).elems.length = 1 ∨
      (⟨1, 2, [0, 1]⟩ : FEdge).elems.length = 2 :=
  c5_incidence_cardinality [⟨0, 1, 2⟩, ⟨1, 2, 3⟩] 4
    (by decide)
    (by
      intro a b
      rw [sharedCount]
      have hk : triPairs [(⟨0, 1, 2⟩ : Tri), ⟨1, 2, 3⟩] =
          [(0, 1), (0, 2), (1, 2), (1, 2), (1, 3), (2, 3)] := rfl
      rw [hk]
      simp only [pocc_cons, pocc_nil, normP, Prod.mk.injEq]
      split_ifs <;> omega)
    ⟨1, 2, [0, 1]⟩ (by decide)

/-- The boundary-id pass at the end of `createGrid`: it walks the edge list
in creation order and writes `boundaryId_ = boundaryIdCounter++` into
**every** edge, with no test on the incidence-list size.  The `Option Nat`
records whether the `boundaryId_` field was written (`some id`) or never
assigned (`none`). -/
def assignBoundaryIds : List FEdge → Nat → List (FEdge × Option Nat)
  | [], _ => []
  | e :: r, cnt => (e, some cnt) :: assignBoundaryIds r (cnt + 1)

/-- Transcription of the claim (spec 4.2): a boundary id is assigned to
exactly the boundary edges (incidence-list size 1), consecutively from 0 in
creation order, and a non-boundary edge receives none. -/
def claimBoundaryIds : List FEdge → Nat → List (FEdge × Option Nat)
  | [], _ => []
  | e :: r, cnt =>
    if e.elems.length = 1 then (e, some cnt) :: claimBoundaryIds r (cnt + 1)
    else (e, none) :: claimBoundaryIds r cnt

/-- C3 counterexample: in the two-triangle mesh `(0,1,2), (1,2,3)` the third
created edge is the interior edge `{1,2}` with incidence list `[0, 1]` of
size 2; the source's pass nevertheless assigns it boundary id 2, while the
claim says a non-boundary edge receives no boundary id. -/
theorem c3_boundary_ids_counterexample :
    (buildEdges [⟨0, 1, 2⟩, ⟨1, 2, 3⟩]).get? 2 = some ⟨1, 2, [0, 1]⟩ ∧
    (assignBoundaryIds (buildEdges [⟨0, 1, 2⟩, ⟨1, 2, 3⟩]) 0).get? 2 =
      some (⟨1, 2, [0, 1]⟩, some 2) ∧
    (claimBoundaryIds (buildEdges [⟨0, 1, 2⟩, ⟨1, 2, 3⟩]) 0).get? 2 =
      some (⟨1, 2, [0, 1]⟩, none) := by
  refine ⟨by decide, by decide, by decide⟩

theorem assignBoundaryIds_get (es : List FEdge) :
    ∀ (cnt j : Nat) (hj : j < es.length),
      (assignBoundaryIds es cnt).get? j = some (es.get ⟨j, hj⟩, some (cnt + j)) := by
  induction es with
  | nil => intro cnt j hj; exact absurd hj (by simp)
  | cons e r ih =>
    intro cnt j hj
    cases j with
    | zero => simp [assignBoundaryIds]
    | succ j =>
      have h' : j < r.length := by simpa using hj
      have hsucc : (assignBoundaryIds (e :: r) cnt).get? (j + 1) =
          (assignBoundaryIds r (cnt + 1)).get? j := by
        simp [assignBoundaryIds]
      have harith : cnt + 1 + j = cnt + (j + 1) := by omega
      rw [hsucc, ih (cnt + 1) j h', harith]
      rfl

/-- C3 amended: after `createGrid`, **every** created edge — boundary or
interior — receives a boundary id, and the ids are the consecutive values
0, 1, 2, … assigned in edge-creation order. -/
theorem c3_boundary_ids_amended (ts : List Tri) (j : Nat)
    (hj : j < (buildEdges ts).length) :
    (assignBoundaryIds (buildEdges ts) 0).get? j =
      some ((buildEdges ts).get ⟨j, hj⟩, some j) := by
  have := assignBoundaryIds_get (buildEdges ts) 0 j hj
  simpa using this

/-- Witness for C3 amended: the interior diagonal edge of the two-triangle
mesh receives boundary id 2. -/
theorem c3_boundary_ids_amended_witness :
    (assignBoundaryIds (buildEdges [⟨0, 1, 2⟩, ⟨1, 2, 3⟩]) 0).get? 2 =
      some ((buildEdges [⟨0, 1, 2⟩, ⟨1, 2, 3⟩]).get ⟨2, by decide⟩, some 2) :=
  c3_boundary_ids_amended [⟨0, 1, 2⟩, ⟨1, 2, 3⟩] 2 (by decide)

/-- The factory's grid reference: `some` holds the inserted coarse data
(the triangle list, vertex identity being insertion order) while the
factory still owns a grid; `createGrid` hands the grid over and nulls the
reference. -/
structure FactoryState where
  pending : Option (List Tri)

/-- The built-grid artifacts that `createGrid` computes before handing the
grid over: the created edge list and the boundary-id assignment.  (The index
pass `setIndices` runs between the two in the source; like them it is
reached only when the grid reference is non-null.) -/
structure BuiltGrid where
  edges : List FEdge
  boundaryIds : List (FEdge × Option Nat)

/-- `GridFactory<FoamGrid>::createGrid`: if `grid_ == NULL` (a second call)
it returns `NULL` at once, performing no work; otherwise it creates the
edges, assigns boundary ids, clears `grid_` and returns the grid. -/
def createGrid (f : FactoryState) : Option BuiltGrid × FactoryState :=
  match f.pending with
  | none => (none, f)
  | some ts => (some ⟨buildEdges ts, assignBoundaryIds (buildEdges ts) 0⟩, ⟨none⟩)

/-- C9: for a factory that still owns a grid, `createGrid` hands over the
built grid and clears the factory's grid reference; the second call returns
no grid (`none`), leaves the state unchanged, and performs no further edge
creation, index update or boundary-id assignment (it returns before any of
that work). -/
theorem c9_create_grid_twice (f : FactoryState) (ts : List Tri)
    (h : f.pending = some ts) :
    (createGrid f).1 = some ⟨buildEdges ts, assignBoundaryIds (buildEdges ts) 0⟩ ∧
    ((createGrid f).2).pending = none ∧
    createGrid ((createGrid f).2) = (none, (createGrid f).2) := by
  simp [createGrid, h]

/-- Witness for C9 at a one-triangle factory. -/
theorem c9_create_grid_twice_witness :
    (createGrid ⟨some [⟨0, 1, 2⟩]⟩).1 =
      some ⟨buildEdges [⟨0, 1, 2⟩], assignBoundaryIds (buildEdges [⟨0, 1, 2⟩]) 0⟩ ∧
    ((createGrid ⟨some [⟨0, 1, 2⟩]⟩).2).pending = none ∧
    createGrid ((createGrid ⟨some [⟨0, 1, 2⟩]⟩).2) =
      (none, (createGrid ⟨some [⟨0, 1, 2⟩]⟩).2) :=
  c9_create_grid_twice ⟨some [⟨0, 1, 2⟩]⟩ [⟨0, 1, 2⟩] rfl

/-! Index-set model (`foamgridindexsets.hh`).  Entities carry only what the
index passes read: a per-codimension id (standing for the C++ object
identity), the leaf flag, and for vertices the refinement successor `son_`.
Index fields (`levelIndex_`, `leafIndex_`) are modelled as maps from ids to
values, written in place by the passes. -/

/-- A vertex as seen by the index passes. -/
structure IVtx where
  vid : Nat
  leaf : Bool
  son : Nat
deriving DecidableEq

/-- An edge as seen by the index passes. -/
structure IEdge where
  eid : Nat
  leaf : Bool
deriving DecidableEq

/-- An element as seen by the index passes. -/
structure IElem where
  gid : Nat
  leaf : Bool
deriving DecidableEq

/-- One entry of `entityImps_`: the per-level entity containers in stable
traversal order. -/
structure LevelData where
  verts : List IVtx
  edges : List IEdge
  elems : List IElem
deriving DecidableEq

/-- The grid's per-level storage, position = level, `maxLevel = length - 1`. -/
abbrev IGrid := List LevelData

/-- Write one index field: `*const_cast<unsigned int*>(&(it->levelIndex_)) = v`. -/
def wr (m : Nat → Nat) (x v : Nat) : Nat → Nat :=
  fun y => if y = x then v else m y

/-- A sequential renumbering loop: assign each listed entity the next
counter value. -/
def assignSeq (m : Nat → Nat) (c : Nat) : List Nat → (Nat → Nat) × Nat
  | [] => (m, c)
  | i :: r => assignSeq (wr m i c) (c + 1) r

/-- The output of `FoamGridLevelIndexSet::update(grid, level)`: the element
and vertex level-index maps, the counts `numElements_`/`numVertices_`, and
`myTypes_[0]`/`myTypes_[1]` (a geometry type is modelled by its dimension
code: the source stores `GeometryType(1)` for elements and `GeometryType(0)`
for vertices, each present exactly when the count is positive). -/
structure LvlIdxRes where
  elIdx : Nat → Nat
  vIdx : Nat → Nat
  numElements : Nat
  numVertices : Nat
  types0 : List Nat
  types1 : List Nat

/-- `FoamGridLevelIndexSet::update`: renumber the level-`L` elements in
traversal order from 0, then the level-`L` vertices from 0, then rebuild the
geometry-type inventory.  (The source indexes `entityImps_[level_]`; a level
out of range is a caller contract violation, modelled by the empty level.) -/
def levelUpdate (g : IGrid) (L : Nat) (mEl mV : Nat → Nat) : LvlIdxRes :=
  let ld := g.getD L ⟨[], [], []⟩
  let rEl := assignSeq mEl 0 (ld.elems.map (fun e => e.gid))
  let rV := assignSeq mV 0 (ld.verts.map (fun v => v.vid))
  ⟨rEl.1, rV.1, rEl.2, rV.2,
    if rEl.2 > 0 then [1] else [], if rV.2 > 0 then [0] else []⟩

/-- The leaf elements in leaf-iterator traversal order.  Modelled from the
spec: the leaf element iterator (`leafbegin<0>`, not under `src/`) visits
"leaf elements in traversal order"; level by level from 0, each level's
element container in order, leaves only. -/
def leafElemIds (g : IGrid) : List Nat :=
  (g.flatMap (fun ld => ld.elems.filter (fun e => e.leaf))).map (fun e => e.gid)

/-- The edge traversal of `FoamGridLeafIndexSet::update`: levels from
`maxLevel()` down to 0, each level's edge container in order. -/
def edgeTraversal (g : IGrid) : List IEdge := g.reverse.flatMap (fun ld => ld.edges)

/-- The vertex traversal of `FoamGridLeafIndexSet::update`: levels from
`maxLevel()` down to 0, each level's vertex container in order. -/
def vtxTraversal (g : IGrid) : List IVtx := g.reverse.flatMap (fun ld => ld.verts)

/-- The edge loop of `FoamGridLeafIndexSet::update`: every visited edge is
asserted to be a leaf ("Only implemented for 1-level grids") and then
assigned the next leaf-edge index unconditionally — the `if (isLeaf)` of
the specification is commented out in the source.  A failed assertion
aborts the pass (`none`). -/
def edgePassGo : List IEdge → (Nat → Nat) → Nat → Option ((Nat → Nat) × Nat)
  | [], m, c => some (m, c)
  | e :: r, m, c => if e.leaf then edgePassGo r (wr m e.eid c) (c + 1) else none

/-- The vertex loop of `FoamGridLeafIndexSet::update`: a leaf vertex gets
the next counter value; a non-leaf (superseded) vertex inherits the current
leaf index of its successor `son_` — which the descending level order has
already assigned in this same pass. -/
def vtxPassGo : List IVtx → (Nat → Nat) → Nat → (Nat → Nat) × Nat
  | [], m, c => (m, c)
  | v :: r, m, c =>
    if v.leaf then vtxPassGo r (wr m v.vid c) (c + 1)
    else vtxPassGo r (wr m v.vid (m v.son)) c

/-- The output of `FoamGridLeafIndexSet::update`: the three leaf-index maps,
`size_[0..2]` (sizes indexed by entity dimension: vertices, edges,
elements), and `myTypes_[codim]` for codims 0, 1, 2 (a simplex type is
modelled by its dimension code, present exactly when the count is
positive). -/
structure LeafIdxRes where
  elIdx : Nat → Nat
  eIdx : Nat → Nat
  vIdx : Nat → Nat
  size0 : Nat
  size1 : Nat
  size2 : Nat
  types0 : List Nat
  types1 : List Nat
  types2 : List Nat

/-- `FoamGridLeafIndexSet::update`: leaf elements in traversal order, then
edges level-descending (with the leaf assertion), then vertices
level-descending, then the geometry-type inventory.  A failed edge
assertion aborts the whole pass. -/
def leafUpdate (g : IGrid) (mEl mE mV : Nat → Nat) : Option LeafIdxRes :=
  let rEl := assignSeq mEl 0 (leafElemIds g)
  match edgePassGo (edgeTraversal g) mE 0 with
  | none => none
  | some rE =>
    let rV := vtxPassGo (vtxTraversal g) mV 0
    some ⟨rEl.1, rE.1, rV.1, rV.2, rE.2, rEl.2,
      if rEl.2 > 0 then [2] else [],
      if rE.2 > 0 then [1] else [],
      if rV.2 > 0 then [0] else []⟩

/-- Sequencing guard for the vertex pass: every non-leaf vertex's successor
id has already been visited (it lives at a deeper level, and levels are
processed deepest-first). -/
def sonsBeforeB : List IVtx → List Nat → Bool
  | [], _ => true
  | v :: r, seen =>
    (v.leaf || decide (v.son ∈ seen)) && sonsBeforeB r (v.vid :: seen)

theorem assignSeq_congr :
    ∀ (ids : List Nat) (m1 m2 : Nat → Nat) (c : Nat),
      (∀ x, x ∉ ids → m1 x = m2 x) → assignSeq m1 c ids = assignSeq m2 c ids
  | [], m1, m2, c, h => by
    have : m1 = m2 := funext fun x => h x (by simp)
    rw [this]
  | i :: r, m1, m2, c, h => by
    rw [assignSeq, assignSeq]
    refine assignSeq_congr r _ _ _ ?_
    intro x hx
    by_cases hxi : x = i
    · subst hxi; simp [wr]
    · simp only [wr, hxi, if_false]
      exact h x (by simp [hxi, hx])

theorem assignSeq_untouched :
    ∀ (ids : List Nat) (m : Nat → Nat) (c : Nat) (x : Nat),
      x ∉ ids → (assignSeq m c ids).1 x = m x
  | [], m, c, x, _ => rfl
  | i :: r, m, c, x, hx => by
    rw [assignSeq]
    have hxi : x ≠ i := fun h => hx (h ▸ List.mem_cons_self i r)
    rw [assignSeq_untouched r _ _ x (fun h => hx (List.mem_cons_of_mem i h))]
    simp [wr, hxi]

theorem edgePassGo_all_leaf :
    ∀ (l : List IEdge) (m : Nat → Nat) (c : Nat),
      edgePassGo l m c =
        if l.all (fun e => e.leaf) then some (assignSeq m c (l.map (fun e => e.eid)))
        else none
  | [], m, c => rfl
  | e :: r, m, c => by
    rw [edgePassGo]
    by_cases he : e.leaf
    · rw [if_pos he, edgePassGo_all_leaf r _ _]
      simp [he, assignSeq]
    · simp [he]

theorem vtxPassGo_congr :
    ∀ (l : List IVtx) (seen : List Nat) (m1 m2 : Nat → Nat) (c : Nat),
      sonsBeforeB l seen = true →
      (∀ x, (x ∈ seen ∨ x ∉ l.map (fun v => v.vid)) → m1 x = m2 x) →
      vtxPassGo l m1 c = vtxPassGo l m2 c
  | [], seen, m1, m2, c, _, h => by
    have : m1 = m2 := funext fun x => h x (Or.inr (by simp))
    rw [this]
  | v :: r, seen, m1, m2, c, hs, h => by
    rw [sonsBeforeB, Bool.and_eq_true] at hs
    have hnext : ∀ (w : Nat), (∀ x, (x ∈ v.vid :: seen ∨ x ∉ r.map (fun v => v.vid)) →
        wr m1 v.vid w x = wr m2 v.vid w x) := by
      intro w x hx
      by_cases hxv : x = v.vid
      · subst hxv; simp [wr]
      · simp only [wr, hxv, if_false]
        refine h x ?_
        rcases hx with hx | hx
        · rcases List.mem_cons.mp hx with h' | h'
          · exact absurd h' hxv
          · exact Or.inl h'
        · refine Or.inr fun hmem => ?_
          rw [List.map_cons] at hmem
          rcases List.mem_cons.mp hmem with h' | h'
          · exact hxv h'
          · exact hx h'
    rw [vtxPassGo, vtxPassGo]
    by_cases hv : v.leaf
    · rw [if_pos hv, if_pos hv]
      exact vtxPassGo_congr r (v.vid :: seen) _ _ _ hs.2 (hnext c)
    · rw [if_neg hv, if_neg hv]
      have hs1 : v.leaf = true ∨ decide (v.son ∈ seen) = true := by
        simpa using hs.1
      have hson : v.son ∈ seen := by
        rcases hs1 with h' | h'
        · exact absurd h' hv
        · exact of_decide_eq_true h'
      have hw : m1 v.son = m2 v.son := h v.son (Or.inl hson)
      rw [hw]
      exact vtxPassGo_congr r (v.vid :: seen) _ _ _ hs.2 (hnext (m2 v.son))

theorem vtxPassGo_untouched :
    ∀ (l : List IVtx) (m : Nat → Nat) (c : Nat) (x : Nat),
      x ∉ l.map (fun v => v.vid) → (vtxPassGo l m c).1 x = m x
  | [], m, c, x, _ => rfl
  | v :: r, m, c, x, hx => by
    have hxv : x ≠ v.vid := fun h => hx (by simp [h])
    have hxr : x ∉ r.map (fun v => v.vid) := fun h => hx (by simp [h])
    rw [vtxPassGo]
    by_cases hv : v.leaf
    · rw [if_pos hv, vtxPassGo_untouched r _ _ x hxr]
      simp [wr, hxv]
    · rw [if_neg hv, vtxPassGo_untouched r _ _ x hxr]
      simp [wr, hxv]

/-- C4 counterexample: a two-level grid whose level-0 edge has been refined
(non-leaf) while its two level-1 children are leaves.  The claim says the
pass visits levels deepest-first and assigns the next leaf-edge index
exactly to the leaf edges, skipping the non-leaf edge; the source instead
asserts every visited edge is a leaf ("Only implemented for 1-level grids",
the `if (isLeaf)` being commented out), so on this grid the pass aborts
fatally and no edge receives a leaf index. -/
theorem c4_leaf_edge_pass_counterexample :
    edgePassGo (edgeTraversal [⟨[], [⟨0, false⟩], []⟩, ⟨[], [⟨1, true⟩, ⟨2, true⟩], []⟩])
      (fun _ => 0) 0 = none := rfl

/-- C4 amended: edges are visited level by level from the deepest present
level down to level 0; every visited edge is asserted to be a leaf, and
when the assertion holds every visited edge (not only the leaves — there
are then no others) is assigned the next consecutive leaf-edge index in
traversal order; if any visited edge is not a leaf the pass fails its
assertion fatally and produces no assignment, instead of skipping the
edge. -/
theorem c4_leaf_edge_pass_amended (g : IGrid) (m : Nat → Nat) (c : Nat) :
    edgePassGo (edgeTraversal g) m c =
      if (edgeTraversal g).all (fun e => e.leaf)
      then some (assignSeq m c ((edgeTraversal g).map (fun e => e.eid)))
      else none :=
  edgePassGo_all_leaf (edgeTraversal g) m c

/-- C8: with no intervening topology change, running
`FoamGridLevelIndexSet::update` for a level `L` twice produces the same
index maps, entity counts and geometry-type inventories as one run, and so
does `FoamGridLeafIndexSet::update` — under the grid conditions that make
the leaf pass complete at all: every edge visited by the leaf pass is a
leaf (`hedge`, the pass's own assertion) and every superseded vertex's
successor is visited before it (`hson`, levels being processed
deepest-first). -/
theorem c8_index_update_idempotent (g : IGrid) (L : Nat)
    (mEl mV mEl' mE mV' : Nat → Nat)
    (hedge : ∀ e ∈ edgeTraversal g, e.leaf = true)
    (hson : sonsBeforeB (vtxTraversal g) [] = true) :
    levelUpdate g L (levelUpdate g L mEl mV).elIdx (levelUpdate g L mEl mV).vIdx =
      levelUpdate g L mEl mV ∧
    ∃ r : LeafIdxRes, leafUpdate g mEl' mE mV' = some r ∧
      leafUpdate g r.elIdx r.eIdx r.vIdx = some r := by
  constructor
  · have hEl : assignSeq ((assignSeq mEl 0
        ((g.getD L ⟨[], [], []⟩).elems.map (fun e => e.gid))).1) 0
        ((g.getD L ⟨[], [], []⟩).elems.map (fun e => e.gid)) =
        assignSeq mEl 0 ((g.getD L ⟨[], [], []⟩).elems.map (fun e => e.gid)) :=
      assignSeq_congr _ _ mEl 0
        (fun x hx => assignSeq_untouched _ mEl 0 x hx)
    have hV : assignSeq ((assignSeq mV 0
        ((g.getD L ⟨[], [], []⟩).verts.map (fun v => v.vid))).1) 0
        ((g.getD L ⟨[], [], []⟩).verts.map (fun v => v.vid)) =
        assignSeq mV 0 ((g.getD L ⟨[], [], []⟩).verts.map (fun v => v.vid)) :=
      assignSeq_congr _ _ mV 0
        (fun x hx => assignSeq_untouched _ mV 0 x hx)
    simp only [levelUpdate]
    simp only [hEl, hV]
  · have hall : (edgeTraversal g).all (fun e => e.leaf) = true := by
      rw [List.all_eq_true]
      intro e he
      exact hedge e he
    have hE1 : edgePassGo (edgeTraversal g) mE 0 =
        some (assignSeq mE 0 ((edgeTraversal g).map (fun e => e.eid))) := by
      rw [edgePassGo_all_leaf, if_pos hall]
    have h2El : assignSeq (assignSeq mEl' 0 (leafElemIds g)).1 0 (leafElemIds g) =
        assignSeq mEl' 0 (leafElemIds g) :=
      assignSeq_congr _ _ mEl' 0
        (fun x hx => assignSeq_untouched _ mEl' 0 x hx)
    have h2E : edgePassGo (edgeTraversal g)
        (assignSeq mE 0 ((edgeTraversal g).map (fun e => e.eid))).1 0 =
        some (assignSeq mE 0 ((edgeTraversal g).map (fun e => e.eid))) := by
      rw [edgePassGo_all_leaf, if_pos hall]
      congr 1
      exact assignSeq_congr _ _ mE 0
        (fun x hx => assignSeq_untouched _ mE 0 x hx)
    have h2V : vtxPassGo (vtxTraversal g) (vtxPassGo (vtxTraversal g) mV' 0).1 0 =
        vtxPassGo (vtxTraversal g) mV' 0 :=
      vtxPassGo_congr _ [] _ mV' 0 hson
        (fun x hx => by
          rcases hx with hx | hx
          · exact absurd hx (List.not_mem_nil x)
          · exact vtxPassGo_untouched _ mV' 0 x hx)
    refine ⟨⟨(assignSeq mEl' 0 (leafElemIds g)).1,
        (assignSeq mE 0 ((edgeTraversal g).map (fun e => e.eid))).1,
        (vtxPassGo (vtxTraversal g) mV' 0).1,
        (vtxPassGo (vtxTraversal g) mV' 0).2,
        (assignSeq mE 0 ((edgeTraversal g).map (fun e => e.eid))).2,
        (assignSeq mEl' 0 (leafElemIds g)).2,
        if (assignSeq mEl' 0 (leafElemIds g)).2 > 0 then [2] else [],
        if (assignSeq mE 0 ((edgeTraversal g).map (fun e => e.eid))).2 > 0 then [1] else [],
        if (vtxPassGo (vtxTraversal g) mV' 0).2 > 0 then [0] else []⟩, ?_, ?_⟩
    · rw [leafUpdate, hE1]
    · dsimp only
      simp only [leafUpdate, h2El, h2E, h2V]

/-- Witness for C8: a two-level grid (one refined element with a refined
vertex successor) on which both passes run and re-run identically. -/
theorem c8_index_update_idempotent_witness :
    levelUpdate
        [⟨[⟨0, false, 2⟩], [⟨0, true⟩], [⟨0, false⟩]⟩,
         ⟨[⟨2, true, 0⟩], [⟨1, true⟩], [⟨1, true⟩]⟩] 0
        (levelUpdate
          [⟨[⟨0, false, 2⟩], [⟨0, true⟩], [⟨0, false⟩]⟩,
           ⟨[⟨2, true, 0⟩], [⟨1, true⟩], [⟨1, true⟩]⟩] 0 (fun _ => 0) (fun _ => 0)).elIdx
        (levelUpdate
          [⟨[⟨0, false, 2⟩], [⟨0, true⟩], [⟨0, false⟩]⟩,
           ⟨[⟨2, true, 0⟩], [⟨1, true⟩], [⟨1, true⟩]⟩] 0 (fun _ => 0) (fun _ => 0)).vIdx =
      levelUpdate
        [⟨[⟨0, false, 2⟩], [⟨0, true⟩], [⟨0, false⟩]⟩,
         ⟨[⟨2, true, 0⟩], [⟨1, true⟩], [⟨1, true⟩]⟩] 0 (fun _ => 0) (fun _ => 0) ∧
    ∃ r : LeafIdxRes,
      leafUpdate
        [⟨[⟨0, false, 2⟩], [⟨0, true⟩], [⟨0, false⟩]⟩,
         ⟨[⟨2, true, 0⟩], [⟨1, true⟩], [⟨1, true⟩]⟩]
        (fun _ => 0) (fun _ => 0) (fun _ => 0) = some r ∧
      leafUpdate
        [⟨[⟨0, false, 2⟩], [⟨0, true⟩], [⟨0, false⟩]⟩,
         ⟨[⟨2, true, 0⟩], [⟨1, true⟩], [⟨1, true⟩]⟩]
        r.elIdx r.eIdx r.vIdx = some r :=
  c8_index_update_idempotent
    [⟨[⟨0, false, 2⟩], [⟨0, true⟩], [⟨0, false⟩]⟩,
     ⟨[⟨2, true, 0⟩], [⟨1, true⟩], [⟨1, true⟩]⟩] 0
    (fun _ => 0) (fun _ => 0) (fun _ => 0) (fun _ => 0) (fun _ => 0)
    (by decide) (by decide)

/-! Hierarchic iterator (`FoamGridHierarchicIterator`).  Elements form a
refinement tree with 0 or 4 sons (`nSons()` is 0 for a leaf and 4 for a
refined triangle). -/

/-- An element of the refinement hierarchy: its level and its 0 or 4 sons. -/
inductive ElemT where
  | leafT (level : Nat)
  | nodeT (level : Nat) (s0 s1 s2 s3 : ElemT)
deriving DecidableEq

/-- The `level_` field. -/
def levelT : ElemT → Nat
  | .leafT l => l
  | .nodeT l _ _ _ _ => l

/-- The push step of `increment()`: after popping `old_target`, its sons are
pushed in order `i = 0 … nSons()-1` when `old_target->level_ < maxlevel_`
and it is not a leaf; with the stack's top at the list head, the pushed sons
sit reversed (son 3 topmost) above the rest. -/
def pushSons (L : Nat) (t : ElemT) (rest : List ElemT) : List ElemT :=
  match t with
  | .leafT _ => rest
  | .nodeT l s0 s1 s2 s3 => if l < L then [s3, s2, s1, s0] ++ rest else rest

/-- Size measure for termination of the stack traversal. -/
def sizeT : ElemT → Nat
  | .leafT _ => 1
  | .nodeT _ s0 s1 s2 s3 => 1 + sizeT s0 + sizeT s1 + sizeT s2 + sizeT s3

/-- Total size of a stack. -/
def stackSize : List ElemT → Nat
  | [] => 0
  | t :: r => sizeT t + stackSize r

theorem stackSize_pushSons_lt (L : Nat) (t : ElemT) (rest : List ElemT) :
    stackSize (pushSons L t rest) < sizeT t + stackSize rest := by
  cases t with
  | leafT l =>
    rw [pushSons]
    simp only [sizeT]
    omega
  | nodeT l s0 s1 s2 s3 =>
    rw [pushSons]
    by_cases h : l < L
    · rw [if_pos h]
      simp [stackSize, sizeT]
      omega
    · rw [if_neg h]
      simp only [sizeT]
      omega

/-- The visit sequence of repeated `increment()` calls from a given stack:
each step visits the stack top, pops it, and pushes its (level-bounded)
sons; the traversal ends when the stack is empty (`setToTarget(nullptr)`). -/
def hierRun (L : Nat) : List ElemT → List ElemT
  | [] => []
  | t :: rest => t :: hierRun L (pushSons L t rest)
termination_by st => stackSize st
decreasing_by
  simp only [stackSize]
  exact stackSize_pushSons_lt _ _ _

/-- The starting stack of the traversal.  Modelled from the spec: the
`hbegin` seeding is not under `src/` (the entity's `hbegin` body is
commented out); per the spec the hierarchic iterator traverses the strict
descendants of the starting element with `level ≤ maxLevel`, so the seed
pushes the element's sons exactly when its level is below the bound —
the same push step `increment()` applies to every popped element. -/
def hseed (E : ElemT) (L : Nat) : List ElemT := pushSons L E []

/-- Transcription of the claim: the strict descendants of an element in the
realized depth-first pre-order (each son followed by its own descendants,
topmost-pushed son first). -/
def allDesc : ElemT → List ElemT
  | .leafT _ => []
  | .nodeT _ s0 s1 s2 s3 =>
    (s3 :: allDesc s3) ++ (s2 :: allDesc s2) ++ (s1 :: allDesc s1) ++ (s0 :: allDesc s0)

/-- The level-pruned descendant enumeration: descend below a node only while
its level is strictly below the bound. -/
def prunedDesc (L : Nat) : ElemT → List ElemT
  | .leafT _ => []
  | .nodeT l s0 s1 s2 s3 =>
    if l < L then
      (s3 :: prunedDesc L s3) ++ (s2 :: prunedDesc L s2) ++
        (s1 :: prunedDesc L s1) ++ (s0 :: prunedDesc L s0)
    else []

/-- Level consistency of the refinement tree: every son was created one
level below its father. -/
def consistentB : ElemT → Bool
  | .leafT _ => true
  | .nodeT l s0 s1 s2 s3 =>
    (levelT s0 == l + 1) && (levelT s1 == l + 1) && (levelT s2 == l + 1) &&
      (levelT s3 == l + 1) && consistentB s0 && consistentB s1 && consistentB s2 &&
      consistentB s3

theorem hierRun_nil (L : Nat) : hierRun L [] = [] := by
  simp [hierRun]

theorem hierRun_cons (L : Nat) (t : ElemT) (rest : List ElemT) :
    hierRun L (t :: rest) = t :: hierRun L (pushSons L t rest) := by
  simp [hierRun]

theorem hierRun_stack (L : Nat) (t : ElemT) :
    ∀ rest : List ElemT, hierRun L (pushSons L t rest) = prunedDesc L t ++ hierRun L rest := by
  induction t with
  | leafT l => intro rest; rw [pushSons, prunedDesc]; rfl
  | nodeT l s0 s1 s2 s3 ih0 ih1 ih2 ih3 =>
    intro rest
    rw [pushSons, prunedDesc]
    by_cases h : l < L
    · rw [if_pos h, if_pos h]
      show hierRun L (s3 :: (s2 :: s1 :: s0 :: rest)) = _
      rw [hierRun_cons, ih3, hierRun_cons, ih2, hierRun_cons, ih1, hierRun_cons, ih0]
      simp [List.append_assoc]
    · rw [if_neg h, if_neg h]
      rfl

theorem levels_allDesc (t : ElemT) (hc : consistentB t = true) :
    ∀ x ∈ allDesc t, levelT t < levelT x := by
  induction t with
  | leafT l => intro x hx; exact absurd hx (by simp [allDesc])
  | nodeT l s0 s1 s2 s3 ih0 ih1 ih2 ih3 =>
    simp only [consistentB, Bool.and_eq_true, beq_iff_eq] at hc
    obtain ⟨⟨⟨⟨⟨⟨⟨h0, h1⟩, h2⟩, h3⟩, hc0⟩, hc1⟩, hc2⟩, hc3⟩ := hc
    intro x hx
    rw [allDesc] at hx
    simp only [List.mem_append, List.mem_cons, or_assoc] at hx
    show l < levelT x
    rcases hx with hx | hx | hx | hx | hx | hx | hx | hx
    · rw [hx, h3]; omega
    · have := ih3 hc3 x hx; omega
    · rw [hx, h2]; omega
    · have := ih2 hc2 x hx; omega
    · rw [hx, h1]; omega
    · have := ih1 hc1 x hx; omega
    · rw [hx, h0]; omega
    · have := ih0 hc0 x hx; omega

theorem prunedDesc_eq_filter (L : Nat) (t : ElemT) (hc : consistentB t = true) :
    prunedDesc L t = (allDesc t).filter (fun x => decide (levelT x ≤ L)) := by
  induction t with
  | leafT l => rfl
  | nodeT l s0 s1 s2 s3 ih0 ih1 ih2 ih3 =>
    have hc' := hc
    simp only [consistentB, Bool.and_eq_true, beq_iff_eq] at hc'
    obtain ⟨⟨⟨⟨⟨⟨⟨h0, h1⟩, h2⟩, h3⟩, hc0⟩, hc1⟩, hc2⟩, hc3⟩ := hc'
    rw [prunedDesc, allDesc]
    by_cases h : l < L
    · rw [if_pos h]
      have hs0 : decide (levelT s0 ≤ L) = true := by rw [h0]; simp; omega
      have hs1 : decide (levelT s1 ≤ L) = true := by rw [h1]; simp; omega
      have hs2 : decide (levelT s2 ≤ L) = true := by rw [h2]; simp; omega
      have hs3 : decide (levelT s3 ≤ L) = true := by rw [h3]; simp; omega
      rw [ih0 hc0, ih1 hc1, ih2 hc2, ih3 hc3]
      simp [List.filter_append, List.filter_cons, hs0, hs1, hs2, hs3]
    · rw [if_neg h]
      have hall := levels_allDesc (ElemT.nodeT l s0 s1 s2 s3) hc
      symm
      rw [List.filter_eq_nil_iff]
      intro x hx
      have hlx : l < levelT x := hall x (by rw [allDesc]; exact hx)
      simp only [decide_eq_true_eq]
      omega

/-- C7: for every element `E` whose refinement tree is level-consistent
(each son one level below its father) and every bound `L`, the hierarchic
traversal — seeded per the spec with `E`'s sons when `E.level < L`, and
driven by the source's `increment()` (pop, push sons while `level_ <
maxlevel_`, stop on empty stack) — visits exactly the strict descendants of
`E` whose level is at most `L`, each exactly once, in depth-first pre-order:
the visit sequence equals the descendant enumeration filtered by the level
bound. -/
theorem c7_hierarchic_traversal (E : ElemT) (L : Nat) (hc : consistentB E = true) :
    hierRun L (hseed E L) = (allDesc E).filter (fun x => decide (levelT x ≤ L)) := by
  have h1 : hierRun L (hseed E L) = prunedDesc L E := by
    have h := hierRun_stack L E []
    rw [hierRun_nil, List.append_nil] at h
    exact h
  rw [h1]
  exact prunedDesc_eq_filter L E hc

/-- Witness for C7: a two-level refinement of one triangle with `maxLevel =
1`; the level-2 grandchildren are not visited. -/
theorem c7_hierarchic_traversal_witness :
    hierRun 1 (hseed (.nodeT 0 (.leafT 1) (.leafT 1) (.leafT 1)
        (.nodeT 1 (.leafT 2) (.leafT 2) (.leafT 2) (.leafT 2))) 1) =
      (allDesc (.nodeT 0 (.leafT 1) (.leafT 1) (.leafT 1)
        (.nodeT 1 (.leafT 2) (.leafT 2) (.leafT 2) (.leafT 2)))).filter
        (fun x => decide (levelT x ≤ 1)) :=
  c7_hierarchic_traversal
    (.nodeT 0 (.leafT 1) (.leafT 1) (.leafT 1)
      (.nodeT 1 (.leafT 2) (.leafT 2) (.leafT 2) (.leafT 2))) 1 (by decide)

/-- `FoamGridLeafIndexSet::size(int codim)`: the stored per-dimension counts
`size_[0..dim]` are indexed by entity dimension (`dim = 2`); the argument is
a C++ `int`, so negative values are representable:
`(codim < 0 || codim > dim) ? 0 : size_[dim - codim]`. -/
def leafSizeCodim (sz : Fin 3 → Nat) (codim : Int) : Nat :=
  if h : 0 ≤ codim ∧ codim ≤ 2 then sz ⟨(2 - codim).toNat, by omega⟩ else 0

/-- `FoamGridLeafIndexSet::size(GeometryType type)`:
`(type.dim() < 0 || type.dim() > dim) ? 0 : size_[type.dim()]`, `tdim`
standing for `type.dim()`. -/
def leafSizeType (sz : Fin 3 → Nat) (tdim : Int) : Nat :=
  if h : 0 ≤ tdim ∧ tdim ≤ 2 then sz ⟨tdim.toNat, by omega⟩ else 0

/-- C10: `FoamGridLeafIndexSet::size(codim)` returns 0 — rather than
signaling an error — whenever `codim` is negative or greater than the grid
dimension 2, and `size(GeometryType)` likewise returns 0 when the type's
dimension lies outside `[0, 2]`; in-range arguments return the stored
per-dimension count (`size_[2 - codim]`, resp. `size_[type.dim()]`). -/
theorem c10_leaf_size_out_of_range (sz : Fin 3 → Nat) (codim tdim : Int) :
    ((codim < 0 ∨ 2 < codim) → leafSizeCodim sz codim = 0) ∧
    (∀ h : 0 ≤ codim ∧ codim ≤ 2,
      leafSizeCodim sz codim = sz ⟨(2 - codim).toNat, by omega⟩) ∧
    ((tdim < 0 ∨ 2 < tdim) → leafSizeType sz tdim = 0) ∧
    (∀ h : 0 ≤ tdim ∧ tdim ≤ 2, leafSizeType sz tdim = sz ⟨tdim.toNat, by omega⟩) := by
  refine ⟨?_, ?_, ?_, ?_⟩
  · intro h
    rw [leafSizeCodim, dif_neg]
    omega
  · intro h
    rw [leafSizeCodim, dif_pos h]
  · intro h
    rw [leafSizeType, dif_neg]
    omega
  · intro h
    rw [leafSizeType, dif_pos h]

/-- Witness for C10: a concrete count table queried at `codim = -1`
(returns 0), `codim = 1` (returns the stored edge count 30), `tdim = 3`
(returns 0) and `tdim = 0` (returns the stored vertex count 20). -/
theorem c10_leaf_size_out_of_range_witness :
    leafSizeCodim ![20, 30, 40] (-1) = 0 ∧
    leafSizeCodim ![20, 30, 40] 1 = 30 ∧
    leafSizeType ![20, 30, 40] 3 = 0 ∧
    leafSizeType ![20, 30, 40] 0 = 20 := by
  have h1 := (c10_leaf_size_out_of_range ![20, 30, 40] (-1) 3).1 (by omega)
  have h2 := (c10_leaf_size_out_of_range ![20, 30, 40] 1 0).2.1 (by omega)
  have h3 := (c10_leaf_size_out_of_range ![20, 30, 40] 1 3).2.2.1 (by omega)
  have h4 := (c10_leaf_size_out_of_range ![20, 30, 40] 1 0).2.2.2 (by omega)
  refine ⟨h1, ?_, h3, ?_⟩
  · rw [h2]; rfl
  · rw [h4]; rfl

end FoamGrid
